import Mathlib

/-!
Verification of the visionary-caption media pipeline.

This file gives a shallow embedding of the two utility components of the
repository — the video frame sampler (`src/videoService.ts`) and the PCM
audio decoder / player (`src/audioService.ts`) — and proves or refutes the
specified properties over that embedding.

Numeric conventions: JavaScript numbers are modelled as `ℚ`.  Every
arithmetic operation the embedded code performs (multiplying a duration by
0.2/0.5/0.8, dividing a 16-bit integer by 32768) is exact in IEEE double
precision (an int16 divided by 2^15 is a dyadic rational well inside double
range), so the rational model computes the same values as the JavaScript
code.  Bytes are `Nat` values reduced mod 256 where they are consumed.
-/

namespace VisionaryCaption

/-! ## Base64 decoding (`atob`)

`decode` in `src/audioService.ts` calls the platform primitive `atob` and
copies its result into a byte array.  `atob` implements the WHATWG
forgiving-base64 decode: strip ASCII whitespace, strip up to two trailing
padding characters when the length is a multiple of four, reject a
remaining length of 4k+1 and any character outside the base64 alphabet,
then decode 6-bit groups into bytes.  We embed that algorithm; failure
(`atob` throwing `InvalidCharacterError`) is `none`. -/

/-- Base64 alphabet value of a character: A–Z ↦ 0–25, a–z ↦ 26–51,
0–9 ↦ 52–61, + ↦ 62, / ↦ 63; anything else is invalid. -/
def b64CharVal (c : Char) : Option Nat :=
  if 'A' ≤ c ∧ c ≤ 'Z' then some (c.toNat - 65)
  else if 'a' ≤ c ∧ c ≤ 'z' then some (c.toNat - 97 + 26)
  else if '0' ≤ c ∧ c ≤ '9' then some (c.toNat - 48 + 52)
  else if c = '+' then some 62
  else if c = '/' then some 63
  else none

/-- ASCII whitespace, removed by forgiving-base64 before decoding. -/
def isB64Whitespace (c : Char) : Bool :=
  c = ' ' ∨ c = '\t' ∨ c = '\n' ∨ c = '\x0c' ∨ c = '\r'

/-- Strip up to two trailing `=` padding characters. -/
def stripB64Pad (cs : List Char) : List Char :=
  match cs.reverse with
  | '=' :: '=' :: rest => rest.reverse
  | '=' :: rest => rest.reverse
  | _ => cs

/-- Decode a list of 6-bit values into bytes: each full group of four
6-bit values yields three bytes; a trailing group of two values yields one
byte and a trailing group of three yields two (low bits discarded), as in
forgiving-base64.  A trailing group of one value is impossible for inputs
that passed the length check and is rejected. -/
def b64Groups : List Nat → Option (List Nat)
  | [] => some []
  | [_] => none
  | [a, b] => some [a * 4 + b / 16]
  | [a, b, c] => some [a * 4 + b / 16, b % 16 * 16 + c / 4]
  | a :: b :: c :: d :: rest =>
      (b64Groups rest).map
        (fun tail => (a * 4 + b / 16) :: (b % 16 * 16 + c / 4) :: (c % 4 * 64 + d) :: tail)

/-- Embedding of the platform `atob`: WHATWG forgiving-base64 decode,
returning the byte sequence or `none` when `atob` would throw. -/
def atob (s : String) : Option (List Nat) := do
  let cs := s.data.filter (fun c => ¬ isB64Whitespace c)
  let cs := if cs.length % 4 = 0 then stripB64Pad cs else cs
  if cs.length % 4 = 1 then none
  else do
    let vals ← cs.mapM b64CharVal
    b64Groups vals

/-- Embedding of `decode` in `src/audioService.ts`: `atob` the payload and
read its characters out as bytes (`charCodeAt` of each position).  The
byte values equal the code points `atob` produced, so the result is the
decoded byte list; a throwing `atob` propagates as `none`. -/
def decode (base64 : String) : Option (List Nat) := atob base64

/-! ## PCM decoding (`decodeAudioData`) -/

/-- Reconstruction of a signed 16-bit little-endian sample from two bytes,
as `new Int16Array(data.buffer)` performs it on a little-endian platform:
low byte plus 256 times the high byte, reinterpreted as two's complement. -/
def toInt16LE (lo hi : Nat) : Int :=
  if lo % 256 + 256 * (hi % 256) < 32768 then (lo % 256 + 256 * (hi % 256) : Nat)
  else (lo % 256 + 256 * (hi % 256) : Nat) - 65536

/-- View of a byte list as int16 samples, as `new Int16Array(data.buffer)`
produces it; constructing an `Int16Array` over a buffer whose byte length
is not a multiple of 2 throws a `RangeError`, modelled as `none`. -/
def bytesToInt16LE : List Nat → Option (List Int)
  | [] => some []
  | [_] => none
  | lo :: hi :: rest => (bytesToInt16LE rest).map (fun l => toInt16LE lo hi :: l)

/-- Embedding of `decodeAudioData` in `src/audioService.ts`: view the bytes
as int16 samples, take `frameCount = dataInt16.length / numChannels`, and
fill one channel array per channel with
`dataInt16[i * numChannels + channel] / 32768.0`.  The `sampleRate`
argument only tags the output buffer and does not affect sample values. -/
def decodeAudioData (data : List Nat) (_sampleRate numChannels : Nat) :
    Option (List (List ℚ)) := do
  let dataInt16 ← bytesToInt16LE data
  let frameCount := dataInt16.length / numChannels
  pure ((List.range numChannels).map (fun channel =>
    (List.range frameCount).map (fun i =>
      ((dataInt16.getD (i * numChannels + channel) 0 : ℚ) / 32768))))

/-- The pure decoding stage of `playPCM`: `decode` the base64 payload and
run `decodeAudioData` at the fixed 24000 Hz rate with one channel, the
arguments `playPCM` passes.  A failure at either stage propagates (the
`catch` block in `playPCM` rethrows). -/
def playDecode (base64Audio : String) : Option (List (List ℚ)) := do
  let decoded ← decode base64Audio
  decodeAudioData decoded 24000 1

/-! ## Video frame sampling (`extractFramesFromVideo`)

`extractFramesFromVideo` in `src/videoService.ts` creates a video element
over an object URL of the input file and installs two handlers: on
`loadedmetadata` it reads the duration, seeks to the three proportional
timestamps in a loop — awaiting each `seeked` event, drawing the current
frame to a canvas and pushing its JPEG base64 payload — then revokes the
object URL and resolves with the frames; on `error` it rejects.  We embed
the environment as the duration the metadata reports, whether the media
loads (versus the `error` event firing), and the frame the canvas capture
yields at each playback position, and record the externally visible
actions the function performs. -/

/-- Environment a video extraction runs against: the duration reported
once metadata loads, whether the media loads at all (the `error` event
fires otherwise), and the JPEG base64 payload captured at each playback
position once the corresponding seek has settled. -/
structure VideoEnv where
  duration : ℚ
  loads : Bool
  capture : ℚ → String

/-- Externally visible actions of `extractFramesFromVideo`: setting
`video.currentTime` (a seek) and `URL.revokeObjectURL(video.src)`. -/
inductive VideoAction where
  | seek (t : ℚ)
  | revokeObjectURL
  deriving DecidableEq

/-- The three seek timestamps computed from the loaded duration, exactly
as `src/videoService.ts` line 11 computes them. -/
def frameTimestamps (duration : ℚ) : List ℚ :=
  [duration * 0.2, duration * 0.5, duration * 0.8]

/-- The `for (const ts of timestamps)` loop body, one iteration per
timestamp in list order: seek to `ts`, await the `seeked` event, capture
the canvas frame.  Returns the actions performed and the frames pushed. -/
def sampleLoop (env : VideoEnv) : List ℚ → List VideoAction × List String
  | [] => ([], [])
  | ts :: rest =>
      let tail := sampleLoop env rest
      (VideoAction.seek ts :: tail.1, env.capture ts :: tail.2)

/-- Embedding of `extractFramesFromVideo`: when metadata loads, run the
sampling loop over the three timestamps, then revoke the object URL and
resolve with the frames; when the `error` event fires instead, reject
(modelled as `Except.error`) having performed no action.  Executions in
which neither handler ever fires, or a seek never settles, never settle
the promise and produce no outcome at all; the embedding covers the
settling executions. -/
def extractFramesFromVideo (env : VideoEnv) :
    List VideoAction × Except String (List String) :=
  if env.loads then
    let run := sampleLoop env (frameTimestamps env.duration)
    (run.1 ++ [VideoAction.revokeObjectURL], Except.ok run.2)
  else ([], Except.error "MediaLoadError")

/-- The seek targets a video extraction issued, in order. -/
def seeksOf (acts : List VideoAction) : List ℚ :=
  acts.filterMap (fun a =>
    match a with
    | VideoAction.seek t => some t
    | VideoAction.revokeObjectURL => none)

/-! ## Playback state machine (`playPCM`)

`playPCM` in `src/audioService.ts` mutates the module-level variable
`activeAudioSource`.  Its body has two atomic segments separated by the
`await decodeAudioData(...)` suspension point: first it creates an audio
context, stops the source `activeAudioSource` points to (if any), and
decodes the payload (throwing on invalid base64); after the await it
creates a source node, starts it, stores it in `activeAudioSource`, and
returns a promise whose executor installs an `ended` handler that sets
`activeAudioSource = null` and resolves the promise with `true`.

Per the Web Audio API, an `AudioBufferSourceNode` fires its `ended` event
whenever it stops playing — when the buffer plays to its natural end AND
when `stop()` is called on it.  The event is dispatched asynchronously, as
a task after the code segment that called `stop()` has run to completion.
We model the system as a small-step machine: calls are numbered, a started
call's source node carries the call's number, and steps are the two call
segments, a natural end of a playing source, and the dispatch of a pending
`ended` event.  A step whose precondition fails (resuming a call that is
not suspended, dispatching an event that is not pending) is `none`, so a
trace that runs to `some` state consists of steps that really occur. -/

/-- State of the playback subsystem: the `activeAudioSource` variable
(holding the number of the call whose source it references), the sources
currently producing audio, the `ended` events fired but not yet
dispatched, and per-call bookkeeping — calls suspended at the `await`,
calls whose source was created and started, calls whose promise has
resolved, and calls that threw during decoding. -/
structure AudioState where
  active : Option Nat
  playing : List Nat
  pendingEnded : List Nat
  midCalls : List Nat
  startedCalls : List Nat
  resolvedCalls : List Nat
  failedCalls : List Nat
  deriving DecidableEq

/-- The initial state: no call made, no source, `activeAudioSource` null. -/
def initAudio : AudioState :=
  ⟨none, [], [], [], [], [], []⟩

/-- Lines 37–39 of `src/audioService.ts`: `if (activeAudioSource)
activeAudioSource.stop()`.  Stopping a playing source silences it and
fires its `ended` event (queued for later dispatch); stopping a source
that already stopped is a no-op.  The variable itself is not cleared. -/
def stopActive (st : AudioState) : AudioState :=
  match st.active with
  | none => st
  | some s =>
      if s ∈ st.playing then
        { st with playing := st.playing.erase s,
                  pendingEnded := st.pendingEnded ++ [s] }
      else st

/-- A call number not used by any earlier call. -/
def freshCall (st : AudioState) (c : Nat) : Prop :=
  c ∉ st.midCalls ∧ c ∉ st.startedCalls ∧ c ∉ st.failedCalls

instance (st : AudioState) (c : Nat) : Decidable (freshCall st c) := by
  unfold freshCall; infer_instance

/-- Steps of the playback machine.  `callStart c valid` is the first
segment of call `c` of `playPCM` (context creation, conditional stop of
the active source, decode — `valid` records whether the payload decodes);
`callResume c` is the segment after the `await` (create, start and store
the source, install the `ended` handler); `naturalEnd s` is source `s`
reaching the end of its buffer; `dispatchEnded s` is the dispatch of the
queued `ended` event of source `s`, running the handler installed by call
`s`: `activeAudioSource = null; resolve(true)`. -/
inductive AudioStep where
  | callStart (c : Nat) (valid : Bool)
  | callResume (c : Nat)
  | naturalEnd (s : Nat)
  | dispatchEnded (s : Nat)
  deriving DecidableEq

/-- One step of the playback machine; `none` when the step's precondition
does not hold in `st`. -/
def audioStep (st : AudioState) : AudioStep → Option AudioState
  | AudioStep.callStart c valid =>
      if freshCall st c then
        let st1 := stopActive st
        if valid then some { st1 with midCalls := c :: st1.midCalls }
        else some { st1 with failedCalls := c :: st1.failedCalls }
      else none
  | AudioStep.callResume c =>
      if c ∈ st.midCalls then
        some { st with midCalls := st.midCalls.erase c,
                       startedCalls := c :: st.startedCalls,
                       playing := c :: st.playing,
                       active := some c }
      else none
  | AudioStep.naturalEnd s =>
      if s ∈ st.playing then
        some { st with playing := st.playing.erase s,
                       pendingEnded := st.pendingEnded ++ [s] }
      else none
  | AudioStep.dispatchEnded s =>
      if s ∈ st.pendingEnded then
        some { st with pendingEnded := st.pendingEnded.erase s,
                       active := none,
                       resolvedCalls := s :: st.resolvedCalls }
      else none

/-- Run a list of steps from a state; `none` when any step's precondition
fails. -/
def audioRun (st : AudioState) : List AudioStep → Option AudioState
  | [] => some st
  | step :: rest => do
      let st1 ← audioStep st step
      audioRun st1 rest

/-! ## Helper lemmas -/

/-- The sampling loop issues exactly one seek per timestamp, in order. -/
theorem sampleLoop_actions (env : VideoEnv) (ts : List ℚ) :
    (sampleLoop env ts).1 = ts.map VideoAction.seek := by
  induction ts with
  | nil => rfl
  | cons t rest ih => simp [sampleLoop, ih]

/-- The sampling loop captures exactly one frame per timestamp. -/
theorem sampleLoop_frames (env : VideoEnv) (ts : List ℚ) :
    (sampleLoop env ts).2 = ts.map env.capture := by
  induction ts with
  | nil => rfl
  | cons t rest ih => simp [sampleLoop, ih]

/-- Every int16 sample reconstructed from two bytes is in the int16 range. -/
theorem toInt16LE_bounds (lo hi : Nat) :
    -32768 ≤ toInt16LE lo hi ∧ toInt16LE lo hi ≤ 32767 := by
  unfold toInt16LE
  have h1 : lo % 256 < 256 := Nat.mod_lt _ (by norm_num)
  have h2 : hi % 256 < 256 := Nat.mod_lt _ (by norm_num)
  split <;> omega

/-- Every sample the int16 view produces is in the int16 range. -/
theorem bytesToInt16LE_mem_bounds :
    ∀ (data : List Nat) (l : List Int), bytesToInt16LE data = some l →
      ∀ k ∈ l, -32768 ≤ k ∧ k ≤ 32767
  | [], l, h => by
      simp only [bytesToInt16LE, Option.some.injEq] at h
      subst h; simp
  | [_], l, h => by simp [bytesToInt16LE] at h
  | lo :: hi :: rest, l, h => by
      simp only [bytesToInt16LE, Option.map_eq_some'] at h
      obtain ⟨tail, htail, rfl⟩ := h
      intro k hk
      rcases List.mem_cons.mp hk with rfl | hk
      · exact toInt16LE_bounds lo hi
      · exact bytesToInt16LE_mem_bounds rest tail htail k hk

/-- The int16 view of a byte list of odd length fails (the `Int16Array`
constructor throws a `RangeError`). -/
theorem bytesToInt16LE_none_of_odd :
    ∀ (data : List Nat), data.length % 2 = 1 → bytesToInt16LE data = none
  | [], h => by simp at h
  | [_], _ => rfl
  | _ :: _ :: rest, h => by
      have : rest.length % 2 = 1 := by simp [List.length_cons] at h; omega
      simp [bytesToInt16LE, bytesToInt16LE_none_of_odd rest this]

/-- Normalizing an int16 value by 32768 lands in the interval [-1, 1). -/
theorem int16_div_bounds (k : Int) (h1 : -32768 ≤ k) (h2 : k ≤ 32767) :
    -1 ≤ (k : ℚ) / 32768 ∧ (k : ℚ) / 32768 < 1 := by
  have hk1 : (-32768 : ℚ) ≤ (k : ℚ) := by exact_mod_cast h1
  have hk2 : (k : ℚ) ≤ 32767 := by exact_mod_cast h2
  constructor
  · rw [le_div_iff₀ (by norm_num : (0 : ℚ) < 32768)]
    linarith
  · rw [div_lt_one (by norm_num : (0 : ℚ) < 32768)]
    linarith

/-! ## Claims about frame sampling -/

/-- C1: for every video duration D > 0 read from the loaded metadata,
`extractFramesFromVideo` computes exactly three seek timestamps equal to
0.2·D, 0.5·D and 0.8·D, and issues the seeks in that ascending order. -/
theorem seekTimestamps_proportional (env : VideoEnv) (hl : env.loads = true)
    (hd : 0 < env.duration) :
    seeksOf (extractFramesFromVideo env).1 =
      [0.2 * env.duration, 0.5 * env.duration, 0.8 * env.duration] ∧
    0.2 * env.duration < 0.5 * env.duration ∧
    0.5 * env.duration < 0.8 * env.duration := by
  refine ⟨?_, by linarith, by linarith⟩
  simp [extractFramesFromVideo, hl, seeksOf, frameTimestamps, sampleLoop,
    List.filterMap]
  refine ⟨by ring, by ring, by ring⟩

/-- Witness for C1: a 10-second video is sought at 2.0 s, 5.0 s, 8.0 s in
that order. -/
theorem seekTimestamps_proportional_witness :
    seeksOf (extractFramesFromVideo ⟨10, true, fun _ => ""⟩).1 = [2, 5, 8] := by
  have h := seekTimestamps_proportional ⟨10, true, fun _ => ""⟩ rfl (by norm_num)
  rw [h.1]; norm_num

/-- C2: `extractFramesFromVideo` is all-or-nothing: every settling
execution either resolves with exactly 3 frames or rejects having
produced no frames (the `Except.error` outcome carries none); it never
resolves with 1 or 2 frames. -/
theorem extractFrames_allOrNothing (env : VideoEnv) (fs : List String)
    (h : (extractFramesFromVideo env).2 = Except.ok fs) : fs.length = 3 := by
  unfold extractFramesFromVideo at h
  by_cases hl : env.loads = true
  · simp only [hl, if_true] at h
    cases h
    rw [sampleLoop_frames]
    simp [frameTimestamps]
  · simp only [eq_false_of_ne_true hl, if_false] at h
    cases h

/-- Witness for C2: a 10-second video that loads resolves with the 3
captured frames. -/
theorem extractFrames_allOrNothing_witness :
    (extractFramesFromVideo ⟨10, true, fun _ => "f"⟩).2 =
      Except.ok ["f", "f", "f"] ∧ (["f", "f", "f"] : List String).length = 3 :=
  ⟨rfl, extractFrames_allOrNothing ⟨10, true, fun _ => "f"⟩ _ rfl⟩

/-! ## Claims about PCM decoding -/

/-- C5 counterexample: the payload [0x00, 0x80] decodes to the single
sample -1, and -1 does not lie in the half-open interval (-1, 1] — the
claimed interval excludes the value the code actually produces at the
lower end of the int16 range. -/
theorem sample_neg_one_outside_Ioc :
    decodeAudioData [0, 128] 24000 1 = some [[-1]] ∧
      ¬ ((-1 : ℚ) ∈ Set.Ioc (-1 : ℚ) 1) := by
  refine ⟨?_, by simp [Set.mem_Ioc]⟩
  norm_num [decodeAudioData, bytesToInt16LE, toInt16LE, List.range_succ,
    List.range_zero, List.getD]

/-- C5 (amended): every sample `decodeAudioData` produces is the int16
value divided by 32768 and lies in the half-open interval [-1, 1) —
closed at -1 (attained by int16 -32768) and open at 1 (the maximum is
32767/32768). -/
theorem decodedSamples_in_Ico (data : List Nat) (sr nc : Nat)
    (out : List (List ℚ)) (h : decodeAudioData data sr nc = some out) :
    ∀ ch ∈ out, ∀ x ∈ ch, -1 ≤ x ∧ x < 1 := by
  unfold decodeAudioData at h
  cases hb : bytesToInt16LE data with
  | none => rw [hb] at h; simp at h
  | some l =>
      rw [hb] at h
      simp only [Option.bind_eq_bind, Option.some_bind, Option.pure_def,
        Option.some.injEq] at h
      subst h
      intro ch hch x hx
      simp only [List.mem_map, List.mem_range] at hch
      obtain ⟨channel, _, rfl⟩ := hch
      simp only [List.mem_map, List.mem_range] at hx
      obtain ⟨i, _, rfl⟩ := hx
      have hbound : -32768 ≤ l.getD (i * nc + channel) 0 ∧
          l.getD (i * nc + channel) 0 ≤ 32767 := by
        rcases Nat.lt_or_ge (i * nc + channel) l.length with hlt | hge
        · have hmem : l.getD (i * nc + channel) 0 ∈ l := by
            rw [List.getD_eq_getElem l 0 hlt]
            exact List.getElem_mem hlt
          exact bytesToInt16LE_mem_bounds data l hb _ hmem
        · rw [List.getD_eq_default l 0 hge]
          norm_num
      exact int16_div_bounds _ hbound.1 hbound.2

/-- Witness for C5 (amended): the sample decoded from [0x00, 0x80] obeys
the [-1, 1) bounds. -/
theorem decodedSamples_in_Ico_witness :
    -1 ≤ (-1 : ℚ) ∧ (-1 : ℚ) < 1 :=
  decodedSamples_in_Ico [0, 128] 24000 1 [[-1]]
    (by norm_num [decodeAudioData, bytesToInt16LE, toInt16LE, List.range_succ,
      List.range_zero, List.getD])
    [-1] (by simp) (-1) (by simp)

/-- C6: decoding the base64 of the little-endian payload [0x00, 0x80]
(int16 -32768) yields the single sample -1, and decoding the base64 of
[0xFF, 0x7F] (int16 32767) yields exactly 32767/32768. -/
theorem decode_extremes :
    playDecode "AIA=" = some [[-1]] ∧
      playDecode "/38=" = some [[32767 / 32768]] := by
  constructor
  · have h : decode "AIA=" = some [0, 128] := rfl
    unfold playDecode
    rw [h]
    norm_num [decodeAudioData, bytesToInt16LE, toInt16LE, List.range_succ,
      List.range_zero, List.getD]
  · have h : decode "/38=" = some [255, 127] := rfl
    unfold playDecode
    rw [h]
    norm_num [decodeAudioData, bytesToInt16LE, toInt16LE, List.range_succ,
      List.range_zero, List.getD]

/-- C7: the decoding stage of `playPCM` fails — producing no decoded
buffer — whenever the payload is not valid base64 (`atob` throws) or the
decoded byte length is odd (the `Int16Array` constructor throws). -/
theorem decode_fails_on_invalid (s : String) :
    (decode s = none → playDecode s = none) ∧
    (∀ bs, decode s = some bs → bs.length % 2 = 1 → playDecode s = none) := by
  constructor
  · intro h
    unfold playDecode
    rw [h]; rfl
  · intro bs h hodd
    unfold playDecode
    rw [h]
    simp only [Option.bind_eq_bind, Option.some_bind]
    unfold decodeAudioData
    rw [bytesToInt16LE_none_of_odd bs hodd]
    rfl

/-- Witness for C7: the payload "%%%%" is not valid base64 and fails, and
the payload "AAAA" decodes to 3 bytes (odd length) and fails. -/
theorem decode_fails_on_invalid_witness :
    decode "%%%%" = none ∧ playDecode "%%%%" = none ∧
      decode "AAAA" = some [0, 0, 0] ∧ playDecode "AAAA" = none :=
  ⟨rfl, (decode_fails_on_invalid "%%%%").1 rfl, rfl,
    (decode_fails_on_invalid "AAAA").2 [0, 0, 0] rfl (by decide)⟩

/-! ## Claim about resource cleanup (object URL) -/

/-- C8 counterexample: when the media fails to load (the `error` handler
fires), `extractFramesFromVideo` rejects without revoking the object URL —
the cleanup the claim asserts for the failure path does not happen.  The
`onerror` handler on line 33 of `src/videoService.ts` only calls
`reject`. -/
theorem objectURL_not_revoked_on_error :
    (extractFramesFromVideo ⟨10, false, fun _ => ""⟩).2 =
        Except.error "MediaLoadError" ∧
      VideoAction.revokeObjectURL ∉
        (extractFramesFromVideo ⟨10, false, fun _ => ""⟩).1 := by
  exact ⟨rfl, by simp [extractFramesFromVideo]⟩

/-- C8 (amended): on the success path `extractFramesFromVideo` performs
exactly the three seeks followed by revoking the object URL, so the
temporary resource is released once all 3 frames are captured and no other
caller-visible state is touched beyond the playback position; on the
failure path it performs no action at all — in particular the object URL
is not revoked before the error propagates. -/
theorem objectURL_revoked_on_success_only (env : VideoEnv) :
    (∀ fs, (extractFramesFromVideo env).2 = Except.ok fs →
        (extractFramesFromVideo env).1 =
          (frameTimestamps env.duration).map VideoAction.seek ++
            [VideoAction.revokeObjectURL]) ∧
    (∀ e, (extractFramesFromVideo env).2 = Except.error e →
        (extractFramesFromVideo env).1 = []) := by
  unfold extractFramesFromVideo
  by_cases hl : env.loads = true
  · simp only [hl, if_true]
    exact ⟨fun fs _ => (by rw [sampleLoop_actions]), fun e he => (by cases he)⟩
  · simp only [eq_false_of_ne_true hl, if_false]
    exact ⟨fun fs hfs => (by cases hfs), fun e _ => rfl⟩

/-- Witness for C8 (amended): a loading 10-second video seeks three times
then revokes; a failing one performs no action. -/
theorem objectURL_revoked_on_success_only_witness :
    (extractFramesFromVideo ⟨10, true, fun _ => ""⟩).1 =
      (frameTimestamps 10).map VideoAction.seek ++
        [VideoAction.revokeObjectURL] ∧
    (extractFramesFromVideo ⟨10, false, fun _ => ""⟩).1 = [] :=
  ⟨(objectURL_revoked_on_success_only ⟨10, true, fun _ => ""⟩).1 ["", "", ""] rfl,
   (objectURL_revoked_on_success_only ⟨10, false, fun _ => ""⟩).2
     "MediaLoadError" rfl⟩

/-! ## Claim about the decode round trip -/

/-- Modelled from the spec: the repository contains no PCM encoder — the
round-trip property in the spec quantifies over "encoding a known float
sequence to 16-bit PCM".  We model the standard 16-bit quantizer it
refers to: scale by 32768, take the floor, clamp to the int16 range. -/
def encodeSample (x : ℚ) : Int :=
  max (-32768) (min 32767 ⌊x * 32768⌋)

/-- Little-endian byte pair of an int16 value (two's complement). -/
def int16ToBytesLE (k : Int) : List Nat :=
  [(k % 65536).toNat % 256, (k % 65536).toNat / 256]

/-- Modelled from the spec: serialize a float sequence as the byte stream
of its 16-bit quantized samples, little-endian — the input format
`decodeAudioData` consumes. -/
def encodePCM (xs : List ℚ) : List Nat :=
  xs.flatMap (fun x => int16ToBytesLE (encodeSample x))

/-- The quantizer always lands in the int16 range. -/
theorem encodeSample_bounds (x : ℚ) :
    -32768 ≤ encodeSample x ∧ encodeSample x ≤ 32767 := by
  unfold encodeSample
  omega

/-- Reading back the little-endian byte pair of an in-range int16 value
recovers it. -/
theorem toInt16LE_int16ToBytesLE (k : Int) (h1 : -32768 ≤ k) (h2 : k ≤ 32767) :
    toInt16LE ((k % 65536).toNat % 256) ((k % 65536).toNat / 256) = k := by
  unfold toInt16LE
  omega

/-- The int16 view of an encoded float sequence is the sequence of its
quantized samples. -/
theorem bytesToInt16LE_encodePCM (xs : List ℚ) :
    bytesToInt16LE (encodePCM xs) = some (xs.map encodeSample) := by
  induction xs with
  | nil => rfl
  | cons x rest ih =>
      have hb := encodeSample_bounds x
      have hk := toInt16LE_int16ToBytesLE (encodeSample x) hb.1 hb.2
      have hstep : encodePCM (x :: rest) =
          (encodeSample x % 65536).toNat % 256 ::
            ((encodeSample x % 65536).toNat / 256 :: encodePCM rest) := by
        simp [encodePCM, int16ToBytesLE]
      rw [hstep]
      simp only [bytesToInt16LE, ih, Option.map_some', List.map_cons, hk]

/-- Quantizing an in-range sample and renormalizing moves it by at most
one quantization step. -/
theorem encodeSample_roundtrip_close (x : ℚ) (h1 : -1 ≤ x) (h2 : x ≤ 1) :
    |x - (encodeSample x : ℚ) / 32768| ≤ 1 / 32768 := by
  have hf1 : ((⌊x * 32768⌋ : ℤ) : ℚ) ≤ x * 32768 := Int.floor_le _
  have hf2 : x * 32768 - 1 < ((⌊x * 32768⌋ : ℤ) : ℚ) := Int.sub_one_lt_floor _
  rcases le_or_lt ⌊x * 32768⌋ 32767 with hc | hc
  · have hlow : -32768 ≤ ⌊x * 32768⌋ := by
      apply Int.le_floor.mpr
      push_cast
      linarith
    have he : encodeSample x = ⌊x * 32768⌋ := by
      unfold encodeSample; omega
    rw [he, abs_le]
    constructor <;> [linarith; linarith]
  · have hge : (32768 : ℤ) ≤ ⌊x * 32768⌋ := by omega
    have hx1 : ((32768 : ℤ) : ℚ) ≤ x * 32768 := Int.le_floor.mp hge
    have hx : x = 1 := by
      apply le_antisymm h2
      push_cast at hx1
      linarith
    have he : encodeSample x = 32767 := by
      unfold encodeSample; omega
    rw [he, hx, abs_le]
    constructor <;> norm_num

/-- Mapping a function over positional lookups of a whole list is mapping
it over the list. -/
theorem range_map_getD (g : Int → ℚ) (l : List Int) :
    (List.range l.length).map (fun i => g (l.getD i 0)) = l.map g := by
  induction l with
  | nil => rfl
  | cons a t ih =>
      rw [List.length_cons, List.range_succ_eq_map, List.map_cons, List.map_map]
      simp only [Function.comp_def, Nat.succ_eq_add_one, List.getD_cons_zero,
        List.getD_cons_succ]
      rw [ih, List.map_cons]

/-- C9: PCM decoding is deterministic (a pure function of the payload:
the same base64 payload always yields the same normalized buffer), and it
is a right-inverse of 16-bit quantization up to one quantization step:
decoding the byte stream of any quantized in-range float sequence yields
the per-sample renormalizations, each within 1/32768 of the original. -/
theorem decode_roundtrip_quantization (xs : List ℚ)
    (h : ∀ x ∈ xs, -1 ≤ x ∧ x ≤ 1) :
    (∀ s t : String, s = t → playDecode s = playDecode t) ∧
    decodeAudioData (encodePCM xs) 24000 1 =
      some [xs.map (fun x => (encodeSample x : ℚ) / 32768)] ∧
    ∀ i (hx : i < xs.length)
      (hy : i < (xs.map (fun x => (encodeSample x : ℚ) / 32768)).length),
      |xs[i] - (xs.map (fun x => (encodeSample x : ℚ) / 32768))[i]| ≤
        1 / 32768 := by
  refine ⟨fun s t hst => (by rw [hst]), ?_, ?_⟩
  · unfold decodeAudioData
    rw [bytesToInt16LE_encodePCM]
    simp only [Option.bind_eq_bind, Option.some_bind, Option.pure_def,
      Option.some.injEq]
    simp only [List.range_succ, List.range_zero, List.nil_append,
      List.map_cons, List.map_nil, Nat.div_one, Nat.mul_one, Nat.add_zero]
    rw [range_map_getD (fun k => (k : ℚ) / 32768) (xs.map encodeSample)]
    rw [List.map_map]
    rfl
  · intro i hx hy
    rw [List.getElem_map]
    have hmem := h xs[i] (List.getElem_mem hx)
    exact encodeSample_roundtrip_close xs[i] hmem.1 hmem.2

/-- Witness for C9: quantizing and decoding [1, -1, 1/2] yields
[32767/32768, -1, 1/2], each within one quantization step of the
original. -/
theorem decode_roundtrip_quantization_witness :
    decodeAudioData (encodePCM [1, -1, 1 / 2]) 24000 1 =
      some [[32767 / 32768, -1, 1 / 2]] := by
  have h := (decode_roundtrip_quantization [1, -1, 1 / 2]
    (by intro x hx; fin_cases hx <;> norm_num)).2.1
  rw [h]
  norm_num [encodeSample]

/-! ## Claims about playback -/

/-- Stopping the active source leaves the resolved-promise list alone. -/
theorem stopActive_resolvedCalls (st : AudioState) :
    (stopActive st).resolvedCalls = st.resolvedCalls := by
  unfold stopActive
  rcases hA : st.active with _ | s
  · rfl
  · dsimp only
    split <;> rfl

/-- Across one step, the resolved-promise list changes only when an
`ended` event is dispatched, which appends its call. -/
theorem audioStep_resolved (st st' : AudioState) (s : AudioStep)
    (h : audioStep st s = some st') (c : Nat) :
    (c ∈ st'.resolvedCalls ↔
      c ∈ st.resolvedCalls ∨ s = AudioStep.dispatchEnded c) := by
  cases s with
  | callStart c' valid =>
      simp only [audioStep] at h
      split at h
      · split at h
        · cases h
          simp [stopActive_resolvedCalls]
        · cases h
          simp [stopActive_resolvedCalls]
      · cases h
  | callResume c' =>
      simp only [audioStep] at h
      split at h
      · cases h; simp
      · cases h
  | naturalEnd s' =>
      simp only [audioStep] at h
      split at h
      · cases h; simp
      · cases h
  | dispatchEnded s' =>
      simp only [audioStep] at h
      split at h
      · cases h
        simp only [List.mem_cons, AudioStep.dispatchEnded.injEq]
        constructor
        · rintro (rfl | hm)
          · exact Or.inr rfl
          · exact Or.inl hm
        · rintro (hm | rfl)
          · exact Or.inr hm
          · exact Or.inl rfl
      · cases h

/-- A promise is resolved in the final state of a successful run exactly
when the run dispatched the `ended` event of that call's source, beyond
whatever was resolved at the start. -/
theorem audioRun_resolved :
    ∀ (trace : List AudioStep) (st0 st : AudioState),
      audioRun st0 trace = some st → ∀ c,
      (c ∈ st.resolvedCalls ↔
        c ∈ st0.resolvedCalls ∨ AudioStep.dispatchEnded c ∈ trace)
  | [], st0, st, h, c => by
      simp only [audioRun, Option.some.injEq] at h
      subst h
      simp
  | s :: rest, st0, st, h, c => by
      simp only [audioRun, Option.bind_eq_bind] at h
      cases hs : audioStep st0 s with
      | none => rw [hs] at h; simp at h
      | some st1 =>
          rw [hs] at h
          simp only [Option.some_bind] at h
          have ih := audioRun_resolved rest st1 st h c
          have hstep := audioStep_resolved st0 st1 s hs c
          rw [ih, hstep, List.mem_cons]
          constructor
          · rintro ((h0 | hd) | hr)
            · exact Or.inl h0
            · exact Or.inr (Or.inl hd.symm)
            · exact Or.inr (Or.inr hr)
          · rintro (h0 | hd | hr)
            · exact Or.inl (Or.inl h0)
            · exact Or.inl (Or.inr hd.symm)
            · exact Or.inr hr

/-- C3: running the well-behaved sequential call pattern — play a clip,
play a second clip while the first is active, let the first source's
queued `ended` event (fired by `stop()`) dispatch, then play a third
clip — reaches the state in which the sources of calls 1 and 2 are BOTH
playing: the dispatched handler nulls `activeAudioSource` while call 1's
source is still playing, so call 2's start finds no active source to
stop.  The single-flight invariant the claim states ("at every reachable
state at most one playback handle is active") is violated by the code;
the claim matches the evident intent of `activeAudioSource`. -/
theorem twoConcurrentPlaybacks_reachable :
    audioRun initAudio
      [AudioStep.callStart 0 true, AudioStep.callResume 0,
       AudioStep.callStart 1 true, AudioStep.callResume 1,
       AudioStep.dispatchEnded 0,
       AudioStep.callStart 2 true, AudioStep.callResume 2] =
      some ⟨some 2, [2, 1], [], [], [2, 1, 0], [0], []⟩ := by
  decide

/-- C4 counterexample: after call 0's playback is superseded by call 1
(whose start stops call 0's source, firing its `ended` event — the trace
contains no natural end), the dispatch of that event resolves call 0's
promise: the superseded promise does NOT remain pending, contradicting
the claim that it is simply abandoned and never resolves. -/
theorem supersededPromise_resolves :
    (audioRun initAudio
      [AudioStep.callStart 0 true, AudioStep.callResume 0,
       AudioStep.callStart 1 true, AudioStep.callResume 1,
       AudioStep.dispatchEnded 0]).map AudioState.resolvedCalls =
      some [0] := by
  decide

/-- C4 (amended): the promise returned by `playPCM` resolves exactly when
the `ended` event of its own source is dispatched — which happens both
when the buffer plays to its natural end and when the source is stopped
by a superseding call, since `stop()` also fires `ended`.  A superseded
call's promise is therefore not abandoned: it resolves once the queued
event dispatches. -/
theorem promiseResolution_iff_endedDispatch (trace : List AudioStep)
    (st : AudioState) (h : audioRun initAudio trace = some st) (c : Nat) :
    c ∈ st.resolvedCalls ↔ AudioStep.dispatchEnded c ∈ trace := by
  rw [audioRun_resolved trace initAudio st h c]
  simp [initAudio]

/-- Witness for C4 (amended): in the five-step superseding trace the
final state resolves exactly the call whose `ended` event was
dispatched. -/
theorem promiseResolution_iff_endedDispatch_witness :
    0 ∈ AudioState.resolvedCalls ⟨none, [1], [], [], [1, 0], [0], []⟩ ↔
      AudioStep.dispatchEnded 0 ∈
        [AudioStep.callStart 0 true, AudioStep.callResume 0,
         AudioStep.callStart 1 true, AudioStep.callResume 1,
         AudioStep.dispatchEnded 0] :=
  promiseResolution_iff_endedDispatch _ _ (by decide) 0

/-- C10: `playPCM` stops the currently active playback before decoding
the new payload (lines 37–41 of `src/audioService.ts`), so a call made
while a playback is active silences that playback even when the call then
fails on an invalid payload — the call records a failure, starts nothing,
and the pre-call playback is not restored. -/
theorem playPCM_stops_active_before_decode (st : AudioState) (s c : Nat)
    (hnd : st.playing.Nodup) (ha : st.active = some s) (hp : s ∈ st.playing)
    (hf : freshCall st c) :
    ∃ st', audioStep st (AudioStep.callStart c false) = some st' ∧
      s ∉ st'.playing ∧ c ∈ st'.failedCalls ∧
      st'.startedCalls = st.startedCalls := by
  refine ⟨{ stopActive st with
    failedCalls := c :: (stopActive st).failedCalls }, ?_, ?_, ?_, ?_⟩
  · simp [audioStep, hf]
  · show s ∉ (stopActive st).playing
    unfold stopActive
    rw [ha]
    dsimp only
    rw [if_pos hp]
    exact hnd.not_mem_erase
  · exact List.mem_cons_self c _
  · show (stopActive st).startedCalls = st.startedCalls
    unfold stopActive
    rcases hA : st.active with _ | s'
    · rfl
    · dsimp only
      split <;> rfl

/-- Witness for C10: from the reachable state after one completed play
call (source 0 active and playing), a second call with an invalid
payload fails yet leaves source 0 silenced. -/
theorem playPCM_stops_active_before_decode_witness :
    ∃ st', audioStep ⟨some 0, [0], [], [], [0], [], []⟩
        (AudioStep.callStart 1 false) = some st' ∧
      0 ∉ st'.playing ∧ 1 ∈ st'.failedCalls ∧
      st'.startedCalls = [0] :=
  playPCM_stops_active_before_decode ⟨some 0, [0], [], [], [0], [], []⟩
    0 1 (by decide) rfl (by decide) (by decide)

end VisionaryCaption
